import Mathlib

/-!
# PolyMarketCopier — verification of the copy-trading engine

Shallow embedding of `src/modules/PolyClasses.py` (class `PolyMarketController`).

* The discovery pass `check_trades_from_wallets` (lines 144-184) is modelled as a
  fold over the wallet snapshot acting on a `PollerState` (the `watched_wallets`
  table, the `seen_trades` table keyed by `transactionHash`, and the in-memory
  `trades_to_copy` queue).
* Remote trade fetching `get_trades_from_wallet` (lines 124-142) is modelled by a
  function `String → FetchResult`; the Python `try/except` that turns any fetch
  failure into `[]` is explicit in `get_trades_from_wallet`.
* The execution side `execute_queued_trades` / `make_order_and_wait_confirmation`
  (lines 186-256) is modelled as an `Except PyErr` computation returning the trace
  of trading-API calls performed; exceptions handled by a Python `except` block do
  not escape, while exceptions raised outside any `try` appear as `Except.error`.
* Machine floats of the Python source are modelled as rationals `ℚ`.
-/

deriving instance DecidableEq for Except

namespace PolyMarketCopier

/-- Kinds of Python exceptions that the embedded code can raise. -/
inductive PyErr where
  | keyError
  | zeroDivisionError
  | unboundLocalError
  | attributeError
  | typeError
  | apiError
deriving DecidableEq, Repr

/-- A trade object decoded from the data-API JSON. Every field is optional
because the source accesses them dict-style (`trade["price"]` raises `KeyError`
when missing, `trade.get('transactionHash')` yields `None`). Numbers are `ℚ`. -/
structure Trade where
  transactionHash : Option String
  asset : Option String
  price : Option ℚ
  size : Option ℚ
  side : Option String
deriving DecidableEq, Repr

/-- The poller-visible state: the `watched_wallets` table, the set of
`transactionHash` keys of the `seen_trades` table, and the in-memory
`trades_to_copy` queue. -/
structure PollerState where
  watched : List String
  seen : List String
  queue : List Trade
deriving DecidableEq, Repr

/-- Result of the raw HTTP fetch for one wallet: a JSON list of trades, or any
failure (network error or non-2xx status from `raise_for_status`). -/
inductive FetchResult where
  | ok (trades : List Trade)
  | fetchFailure
deriving DecidableEq, Repr

/-- `get_trades_from_wallet` (lines 124-142): the whole body is wrapped in
`try/except`, so any fetch failure is logged and `[]` is returned. -/
def get_trades_from_wallet (f : String → FetchResult) (w : String) : List Trade :=
  match f w with
  | .ok ts => ts
  | .fetchFailure => []

/-- One iteration of the already-watched branch of `check_trades_from_wallets`
(lines 170-182): read `trade.get('transactionHash')`; if truthy and not yet in
`seen_trades`, append the trade to `trades_to_copy` and insert the hash. -/
def seenStep (st : PollerState) (t : Trade) : PollerState :=
  match t.transactionHash with
  | none => st
  | some h =>
    if h = "" then st
    else if h ∈ st.seen then st
    else { st with queue := st.queue ++ [t], seen := st.seen ++ [h] }

/-- One iteration of the new-wallet baseline import (lines 163-167):
`INSERT OR IGNORE` of a truthy hash into `seen_trades`; nothing is queued. -/
def baselineStep (seen : List String) (t : Trade) : List String :=
  match t.transactionHash with
  | none => seen
  | some h =>
    if h = "" then seen
    else if h ∈ seen then seen
    else seen ++ [h]

/-- The per-wallet body of the discovery loop (lines 148-183): skip on empty
fetch (`if not trades: continue`), then branch on whether the wallet is already
in `watched_wallets`. -/
def processWallet (s : PollerState) (w : String) (ts : List Trade) : PollerState :=
  if ts.isEmpty then s
  else if w ∈ s.watched then
    ts.foldl seenStep s
  else
    { watched := s.watched ++ [w]
      seen := ts.foldl baselineStep s.seen
      queue := s.queue }

/-- `check_trades_from_wallets` (lines 144-184): one discovery pass over the
wallet snapshot `ws`, with `f` giving each wallet's raw fetch outcome. -/
def check_trades_from_wallets (f : String → FetchResult) (ws : List String)
    (s : PollerState) : PollerState :=
  ws.foldl (fun st w => processWallet st w (get_trades_from_wallet f w)) s

/-- Number of queued trades carrying the transaction hash `h`. -/
def hashCount (h : String) (q : List Trade) : Nat :=
  q.countP (fun t => t.transactionHash == some h)

/-- A state has fully absorbed one discovery pass: every wallet of the snapshot
whose fetch is non-empty is watched, and every truthy hash it fetches is seen. -/
def Processed (f : String → FetchResult) (ws : List String) (s : PollerState) : Prop :=
  ∀ w ∈ ws, get_trades_from_wallet f w ≠ [] →
    w ∈ s.watched ∧
    ∀ t ∈ get_trades_from_wallet f w, ∀ h, t.transactionHash = some h → h ≠ "" →
      h ∈ s.seen

/-- A well-formed sample trade with transaction hash `h`, used by concrete
witnesses. -/
def mkTrade (h : String) : Trade :=
  { transactionHash := some h, asset := some "A", price := some 2,
    size := some 3, side := some "BUY" }

/-- Witness fetch: wallet `"W1"` reports the single trade `"T3"`, every other
fetch fails. -/
def fetchW1T3 : String → FetchResult :=
  fun w => if w = "W1" then FetchResult.ok [mkTrade "T3"]
    else FetchResult.fetchFailure

/-- Witness fetch: wallet `"W2"` fails, every other wallet reports one trade
with a wallet-specific hash. -/
def fetchFailW2 : String → FetchResult :=
  fun w => if w = "W2" then FetchResult.fetchFailure
    else FetchResult.ok [mkTrade ("T" ++ w)]

/-- Witness state: `"W1"` watched, `"T1"` and `"T2"` seen, queue empty. -/
def stateW1Seen : PollerState :=
  { watched := ["W1"], seen := ["T1", "T2"], queue := [] }

/-- Witness state: `"W1"` watched, nothing seen, queue empty. -/
def stateW1Only : PollerState :=
  { watched := ["W1"], seen := [], queue := [] }

/-- Witness state: nothing watched, `"T1"` seen, queue empty. -/
def stateSeenT1 : PollerState :=
  { watched := [], seen := ["T1"], queue := [] }

/-- Witness state: everything empty. -/
def stateEmpty : PollerState :=
  { watched := [], seen := [], queue := [] }

/-! ## Order execution engine -/

/-- The controller configuration that `__init__` (lines 31-48) actually stores
on `self`: `order_type`, `market_order_fixed_ammount` and `min_share_possible`.
Note that the constructor parameter `limit_order_timeout` is *not* assigned to
any attribute. -/
structure Controller where
  order_type : String
  market_order_fixed_ammount : ℚ
  min_share_possible : Bool
deriving DecidableEq, Repr

/-- Attribute lookup for `self.limit_order_timeout`. `__init__` (lines 31-48)
receives `limit_order_timeout` as a parameter but never assigns it to `self`,
and no other code in the repository sets the attribute, so the lookup at line
228 raises `AttributeError` on every controller. -/
def Controller.limitOrderTimeoutAttr (_c : Controller) : Except PyErr Nat :=
  .error .attributeError

/-- Behaviour of the remote trading API during one execution attempt:
whether `create_order` succeeds, the `orderID` returned by `post_order`
(`none` means the call raised), the ids returned by
`get_orders(OpenOrderParams())`, and whether `create_market_order` succeeds. -/
structure Remote where
  createOrderOk : Bool
  postOrderResp : Option String
  openOrders : List String
  createMarketOrderOk : Bool
deriving DecidableEq, Repr

/-- Trace of trading-API calls issued by one execution attempt. -/
inductive ApiCall where
  | createOrder (tokenId : String) (price : ℚ) (size : ℚ) (side : String)
  | postOrderGTC
  | getOpenOrders
  | cancel (orderId : String)
  | createMarketOrder (tokenId : String) (amount : ℚ) (side : String)
  | postOrderFOK
deriving DecidableEq, Repr

/-- The limit-order sizing prelude (lines 205-212). It runs *before* the `try`
block, so its exceptions escape `make_order_and_wait_confirmation`:
`trade["price"]` / `trade["size"]` raise `KeyError` when the key is missing, and
`math.ceil(1 / price)` raises `ZeroDivisionError` when `price` is zero. The
local variable `price` is bound only in the `min_share_possible` branch, hence
the `Option ℚ` first component. The returned second component is `min_size`. -/
def sizingPrelude (c : Controller) (t : Trade) : Except PyErr (Option ℚ × ℚ) :=
  if c.min_share_possible then
    match t.price, t.size with
    | some p, some _ =>
        if p = 0 then .error .zeroDivisionError
        else .ok (some p, ((⌈(1 : ℚ) / p⌉ : ℤ) : ℚ))
    | none, _ => .error .keyError
    | some _, none => .error .keyError
  else
    match t.size with
    | some sz => .ok (none, sz)
    | none => .error .keyError

/-- What happens after a limit order is successfully posted (lines 228-235).
The log line at 228 interpolates `self.limit_order_timeout`; since that
attribute was never assigned, the lookup raises `AttributeError`, which the
surrounding `except Exception` catches — so the sleep, the open-order query and
the cancel loop are skipped. The `.ok` branch records what lines 229-235 would
do if the attribute existed: wait, query open orders, and cancel every open
order whose id equals the placed `orderID`. -/
def limitPostPlacement (c : Controller) (r : Remote) (orderID : String) : List ApiCall :=
  match c.limitOrderTimeoutAttr with
  | .error _ => []
  | .ok _ =>
      ApiCall.getOpenOrders ::
        (r.openOrders.filter (fun oid => oid == orderID)).map ApiCall.cancel

/-- The limit-order `try` block (lines 214-239). All exceptions inside it are
caught by the handlers at 236-239, so it never raises; it returns the API calls
issued. `OrderArgs` evaluates `trade["asset"]`, the local `price`, the size
expression and `trade["side"]` — a missing key raises `KeyError` and an unbound
`price` raises `UnboundLocalError`, all caught before any API call is made. -/
def limitTryCalls (c : Controller) (r : Remote) (asset? side? : Option String)
    (priceVar : Option ℚ) (minSize : ℚ) : List ApiCall :=
  match asset?, priceVar, side? with
  | some a, some p, some sd =>
      ApiCall.createOrder a p (if minSize < 5 then 5 else minSize) sd ::
        (if r.createOrderOk then
          ApiCall.postOrderGTC ::
            (match r.postOrderResp with
             | some oid => limitPostPlacement c r oid
             | none => [])
         else [])
  | _, _, _ => []

/-- The market-order `try` block (lines 241-256). Everything, including the
`trade["asset"]` / `trade["side"]` accesses, sits inside `try/except`, so it
never raises; the amount is the configured `market_order_fixed_ammount` and the
order is posted fill-or-kill. -/
def marketTryCalls (c : Controller) (r : Remote) (t : Trade) : List ApiCall :=
  match t.asset, t.side with
  | some a, some sd =>
      ApiCall.createMarketOrder a c.market_order_fixed_ammount sd ::
        (if r.createMarketOrderOk then [ApiCall.postOrderFOK] else [])
  | _, _ => []

/-- `make_order_and_wait_confirmation` (lines 204-256): the limit branch runs
its (unprotected) sizing prelude and then its `try` block; afterwards the
market `try` block runs whenever the configured order type is `"market"`.
The result is `Except.error e` exactly when an uncaught exception `e` escapes,
and otherwise the trace of API calls issued. -/
def make_order_and_wait_confirmation (c : Controller) (r : Remote) (t : Trade) :
    Except PyErr (List ApiCall) :=
  match (if c.order_type = "limit" then
          (sizingPrelude c t).map
            (fun pm => limitTryCalls c r t.asset t.side pm.1 pm.2)
         else .ok []) with
  | .error e => .error e
  | .ok limitCalls =>
      .ok (limitCalls ++
        (if c.order_type = "market" then marketTryCalls c r t else []))

/-- The body of the `for` loop of `execute_queued_trades` (lines 197-202) for
one trade: the log line at 198 slices `trade.get('asset')[:20]`, which raises
`TypeError` when the key is absent (`None[:20]`); then the execution attempt
runs, and on its completion the trade is removed from `trades_to_copy`
(`if trade in list: list.remove(trade)`, i.e. erase the first occurrence). -/
def executeQueuedTradesStep (c : Controller) (r : Remote) (queue : List Trade)
    (t : Trade) : Except PyErr (List Trade) :=
  match t.asset with
  | none => .error .typeError
  | some _ =>
      match make_order_and_wait_confirmation c r t with
      | .error e => .error e
      | .ok _ => .ok (queue.erase t)

/-- `execute_queued_trades` (lines 186-202): iterate over a snapshot of
`trades_to_copy`, threading the live queue through each per-trade step; an
uncaught exception from a step aborts the loop and escapes. -/
def execute_queued_trades (c : Controller) (r : Remote) (q : List Trade) :
    Except PyErr (List Trade) :=
  q.foldlM (fun cur t => executeQueuedTradesStep c r cur t) q

/-! ## Wallet registry -/

/-- Helper for `pySplitlines`: scan the characters, emitting a line at each of
the terminators that occur in text wallet files (`\r\n`, `\r`, `\n`), with no
empty final line for a trailing terminator — matching `str.splitlines()`. -/
def splitlinesAux : List Char → List Char → List String
  | [], acc => if acc.isEmpty then [] else [String.mk acc.reverse]
  | '\r' :: '\n' :: rest, acc => String.mk acc.reverse :: splitlinesAux rest []
  | '\r' :: rest, acc => String.mk acc.reverse :: splitlinesAux rest []
  | '\n' :: rest, acc => String.mk acc.reverse :: splitlinesAux rest []
  | c :: rest, acc => splitlinesAux rest (c :: acc)

/-- Python's `str.splitlines()` restricted to the LF / CRLF / CR terminators. -/
def pySplitlines (s : String) : List String :=
  splitlinesAux s.data []

/-- `get_wallets_to_copy` (lines 103-122). The raw file read is modelled as an
`Except`: `.ok content` is the file's text, `.error` any read failure. The
function returns the pair (new `wallets_to_copy` snapshot, returned value);
on success the snapshot becomes `content.splitlines()`, on failure it is reset
to `[]`, and `return self.wallets_to_copy` runs after the `try/except` in both
cases, so the call never raises. -/
def get_wallets_to_copy (readResult : Except Unit String) :
    List String × List String :=
  match readResult with
  | .ok content =>
      let wallets := pySplitlines content
      (wallets, wallets)
  | .error _ => ([], [])

/-! ## Lemmas about the discovery pass -/

/-- Unfolding the pass over a non-empty wallet snapshot. -/
lemma check_cons (f : String → FetchResult) (w0 : String) (ws : List String)
    (s : PollerState) :
    check_trades_from_wallets f (w0 :: ws) s =
      check_trades_from_wallets f ws
        (processWallet s w0 (get_trades_from_wallet f w0)) := rfl

/-- Counting occurrences of `h` in a singleton with a different element. -/
lemma count_singleton_ne (a h : String) (hne : a ≠ h) : List.count h [a] = 0 := by
  rw [List.count_eq_zero]
  simp [Ne.symm hne]

/-- `seenStep` either leaves the state unchanged, or queues the trade and
marks its (truthy, fresh) hash seen. -/
lemma seenStep_cases (st : PollerState) (t : Trade) :
    seenStep st t = st ∨
    ∃ h, t.transactionHash = some h ∧ h ≠ "" ∧ h ∉ st.seen ∧
      seenStep st t =
        { st with queue := st.queue ++ [t], seen := st.seen ++ [h] } := by
  rcases ht : t.transactionHash with _ | h
  · left; simp [seenStep, ht]
  · by_cases h1 : h = ""
    · left; simp [seenStep, ht, h1]
    · by_cases h2 : h ∈ st.seen
      · left; simp [seenStep, ht, h1, h2]
      · right; exact ⟨h, rfl, h1, h2, by simp [seenStep, ht, h1, h2]⟩

/-- `baselineStep` either leaves the seen set unchanged, or adds the (truthy,
fresh) hash. -/
lemma baselineStep_cases (seen : List String) (t : Trade) :
    baselineStep seen t = seen ∨
    ∃ h, t.transactionHash = some h ∧ h ≠ "" ∧ h ∉ seen ∧
      baselineStep seen t = seen ++ [h] := by
  rcases ht : t.transactionHash with _ | h
  · left; simp [baselineStep, ht]
  · by_cases h1 : h = ""
    · left; simp [baselineStep, ht, h1]
    · by_cases h2 : h ∈ seen
      · left; simp [baselineStep, ht, h1, h2]
      · right; exact ⟨h, rfl, h1, h2, by simp [baselineStep, ht, h1, h2]⟩

lemma seenStep_watched (st : PollerState) (t : Trade) :
    (seenStep st t).watched = st.watched := by
  rcases seenStep_cases st t with he | ⟨a, _, _, _, he⟩ <;> rw [he]

lemma foldl_seenStep_watched (ts : List Trade) (st : PollerState) :
    (ts.foldl seenStep st).watched = st.watched := by
  induction ts generalizing st with
  | nil => rfl
  | cons t ts ih => rw [List.foldl_cons, ih, seenStep_watched]

lemma seenStep_seen_mono {x : String} (st : PollerState) (t : Trade)
    (hx : x ∈ st.seen) : x ∈ (seenStep st t).seen := by
  rcases seenStep_cases st t with he | ⟨a, _, _, _, he⟩ <;> rw [he]
  · exact hx
  · exact List.mem_append_left _ hx

lemma foldl_seenStep_seen_mono {x : String} (ts : List Trade) (st : PollerState)
    (hx : x ∈ st.seen) : x ∈ (ts.foldl seenStep st).seen := by
  induction ts generalizing st with
  | nil => exact hx
  | cons t ts ih => exact ih _ (seenStep_seen_mono _ _ hx)

lemma seenStep_queue_mono {x : Trade} (st : PollerState) (t : Trade)
    (hx : x ∈ st.queue) : x ∈ (seenStep st t).queue := by
  rcases seenStep_cases st t with he | ⟨a, _, _, _, he⟩ <;> rw [he]
  · exact hx
  · exact List.mem_append_left _ hx

lemma foldl_seenStep_queue_mono {x : Trade} (ts : List Trade) (st : PollerState)
    (hx : x ∈ st.queue) : x ∈ (ts.foldl seenStep st).queue := by
  induction ts generalizing st with
  | nil => exact hx
  | cons t ts ih => exact ih _ (seenStep_queue_mono _ _ hx)

lemma baselineStep_mono {x : String} (seen : List String) (t : Trade)
    (hx : x ∈ seen) : x ∈ baselineStep seen t := by
  rcases baselineStep_cases seen t with he | ⟨a, _, _, _, he⟩ <;> rw [he]
  · exact hx
  · exact List.mem_append_left _ hx

lemma foldl_baselineStep_mono {x : String} (ts : List Trade) (seen : List String)
    (hx : x ∈ seen) : x ∈ ts.foldl baselineStep seen := by
  induction ts generalizing seen with
  | nil => exact hx
  | cons t ts ih => exact ih _ (baselineStep_mono _ _ hx)

lemma seenStep_hash_mem (st : PollerState) (t : Trade) (h : String)
    (hth : t.transactionHash = some h) (hne : h ≠ "") :
    h ∈ (seenStep st t).seen := by
  by_cases h2 : h ∈ st.seen <;> simp [seenStep, hth, hne, h2]

lemma foldl_seenStep_hash_mem (ts : List Trade) (t : Trade) (h : String)
    (hth : t.transactionHash = some h) (hne : h ≠ "") :
    ∀ st : PollerState, t ∈ ts → h ∈ (ts.foldl seenStep st).seen := by
  induction ts with
  | nil => intro st ht; cases ht
  | cons t0 ts ih =>
    intro st ht
    rw [List.foldl_cons]
    rcases List.mem_cons.mp ht with rfl | ht'
    · exact foldl_seenStep_seen_mono _ _ (seenStep_hash_mem _ _ _ hth hne)
    · exact ih _ ht'

lemma baselineStep_hash_mem (seen : List String) (t : Trade) (h : String)
    (hth : t.transactionHash = some h) (hne : h ≠ "") :
    h ∈ baselineStep seen t := by
  by_cases h2 : h ∈ seen <;> simp [baselineStep, hth, hne, h2]

lemma foldl_baselineStep_hash_mem (ts : List Trade) (t : Trade) (h : String)
    (hth : t.transactionHash = some h) (hne : h ≠ "") :
    ∀ seen : List String, t ∈ ts → h ∈ ts.foldl baselineStep seen := by
  induction ts with
  | nil => intro seen ht; cases ht
  | cons t0 ts ih =>
    intro seen ht
    rw [List.foldl_cons]
    rcases List.mem_cons.mp ht with rfl | ht'
    · exact foldl_baselineStep_mono _ _ (baselineStep_hash_mem _ _ _ hth hne)
    · exact ih _ ht'

lemma processWallet_watched_mono {x : String} (s : PollerState) (w : String)
    (ts : List Trade) (hx : x ∈ s.watched) :
    x ∈ (processWallet s w ts).watched := by
  unfold processWallet
  split
  · exact hx
  · split
    · rw [foldl_seenStep_watched]; exact hx
    · exact List.mem_append_left _ hx

lemma processWallet_seen_mono {x : String} (s : PollerState) (w : String)
    (ts : List Trade) (hx : x ∈ s.seen) : x ∈ (processWallet s w ts).seen := by
  unfold processWallet
  split
  · exact hx
  · split
    · exact foldl_seenStep_seen_mono _ _ hx
    · exact foldl_baselineStep_mono _ _ hx

lemma processWallet_queue_mono {x : Trade} (s : PollerState) (w : String)
    (ts : List Trade) (hx : x ∈ s.queue) : x ∈ (processWallet s w ts).queue := by
  unfold processWallet
  split
  · exact hx
  · split
    · exact foldl_seenStep_queue_mono _ _ hx
    · exact hx

lemma processWallet_watched_self (s : PollerState) (w : String) (ts : List Trade)
    (hts : ts ≠ []) : w ∈ (processWallet s w ts).watched := by
  unfold processWallet
  rw [if_neg (by simpa [List.isEmpty_iff] using hts)]
  split
  · rw [foldl_seenStep_watched]; assumption
  · exact List.mem_append_right _ (List.mem_singleton_self _)

lemma processWallet_watched_sub {x : String} (s : PollerState) (w : String)
    (ts : List Trade) (hx : x ∈ (processWallet s w ts).watched) :
    x ∈ s.watched ∨ (x = w ∧ ts ≠ []) := by
  revert hx
  unfold processWallet
  split
  · exact fun hx => Or.inl hx
  · next hts =>
    split
    · rw [foldl_seenStep_watched]; exact fun hx => Or.inl hx
    · intro hx
      rcases List.mem_append.mp hx with hx | hx
      · exact Or.inl hx
      · refine Or.inr ⟨List.mem_singleton.mp hx, ?_⟩
        simpa [List.isEmpty_iff] using hts

lemma processWallet_hashes_seen (s : PollerState) (w : String) (ts : List Trade)
    (t : Trade) (h : String) (ht : t ∈ ts) (hth : t.transactionHash = some h)
    (hne : h ≠ "") : h ∈ (processWallet s w ts).seen := by
  unfold processWallet
  rw [if_neg (by simpa [List.isEmpty_iff] using List.ne_nil_of_mem ht)]
  split
  · exact foldl_seenStep_hash_mem ts t h hth hne s ht
  · exact foldl_baselineStep_hash_mem ts t h hth hne s.seen ht

lemma pass_watched_mono {x : String} (f : String → FetchResult) (ws : List String)
    (s : PollerState) (hx : x ∈ s.watched) :
    x ∈ (check_trades_from_wallets f ws s).watched := by
  induction ws generalizing s with
  | nil => exact hx
  | cons w0 ws ih => exact ih _ (processWallet_watched_mono _ _ _ hx)

lemma pass_seen_mono {x : String} (f : String → FetchResult) (ws : List String)
    (s : PollerState) (hx : x ∈ s.seen) :
    x ∈ (check_trades_from_wallets f ws s).seen := by
  induction ws generalizing s with
  | nil => exact hx
  | cons w0 ws ih => exact ih _ (processWallet_seen_mono _ _ _ hx)

lemma pass_queue_mono {x : Trade} (f : String → FetchResult) (ws : List String)
    (s : PollerState) (hx : x ∈ s.queue) :
    x ∈ (check_trades_from_wallets f ws s).queue := by
  induction ws generalizing s with
  | nil => exact hx
  | cons w0 ws ih => exact ih _ (processWallet_queue_mono _ _ _ hx)

lemma pass_watched_sub (f : String → FetchResult) (ws : List String)
    (s : PollerState) (x : String)
    (hx : x ∈ (check_trades_from_wallets f ws s).watched) :
    x ∈ s.watched ∨ (x ∈ ws ∧ get_trades_from_wallet f x ≠ []) := by
  induction ws generalizing s with
  | nil => exact Or.inl hx
  | cons w0 ws ih =>
    rw [check_cons] at hx
    rcases ih _ hx with hx' | ⟨hmem, hne⟩
    · rcases processWallet_watched_sub _ _ _ hx' with hx'' | ⟨rfl, hne⟩
      · exact Or.inl hx''
      · exact Or.inr ⟨List.mem_cons_self _ _, hne⟩
    · exact Or.inr ⟨List.mem_cons_of_mem _ hmem, hne⟩

/-- Once a hash is seen, the already-watched branch can never queue another
trade with that hash nor insert the hash again. -/
lemma seenStep_stable {h : String} (st : PollerState) (t : Trade)
    (hh : h ∈ st.seen) :
    hashCount h (seenStep st t).queue = hashCount h st.queue ∧
    (seenStep st t).seen.count h = st.seen.count h ∧
    h ∈ (seenStep st t).seen := by
  rcases seenStep_cases st t with he | ⟨a, ha, hne, hna, he⟩
  · rw [he]; exact ⟨rfl, rfl, hh⟩
  · have hah : a ≠ h := fun e => hna (e ▸ hh)
    rw [he]
    refine ⟨?_, ?_, List.mem_append_left _ hh⟩
    · simp [hashCount, List.countP_append, ha, hah]
    · simp [List.count_append, count_singleton_ne a h hah]

lemma foldl_seenStep_stable {h : String} (ts : List Trade) (st : PollerState)
    (hh : h ∈ st.seen) :
    hashCount h (ts.foldl seenStep st).queue = hashCount h st.queue ∧
    (ts.foldl seenStep st).seen.count h = st.seen.count h ∧
    h ∈ (ts.foldl seenStep st).seen := by
  induction ts generalizing st with
  | nil => exact ⟨rfl, rfl, hh⟩
  | cons t ts ih =>
    obtain ⟨q1, s1, m1⟩ := seenStep_stable st t hh
    obtain ⟨q2, s2, m2⟩ := ih _ m1
    rw [List.foldl_cons]
    exact ⟨by rw [q2, q1], by rw [s2, s1], m2⟩

lemma baselineStep_stable {h : String} (seen : List String) (t : Trade)
    (hh : h ∈ seen) :
    (baselineStep seen t).count h = seen.count h ∧ h ∈ baselineStep seen t := by
  rcases baselineStep_cases seen t with he | ⟨a, _, _, hna, he⟩
  · rw [he]; exact ⟨rfl, hh⟩
  · have hah : a ≠ h := fun e => hna (e ▸ hh)
    rw [he]
    exact ⟨by simp [List.count_append, count_singleton_ne a h hah], List.mem_append_left _ hh⟩

lemma foldl_baselineStep_stable {h : String} (ts : List Trade)
    (seen : List String) (hh : h ∈ seen) :
    (ts.foldl baselineStep seen).count h = seen.count h ∧
    h ∈ ts.foldl baselineStep seen := by
  induction ts generalizing seen with
  | nil => exact ⟨rfl, hh⟩
  | cons t ts ih =>
    obtain ⟨s1, m1⟩ := baselineStep_stable seen t hh
    obtain ⟨s2, m2⟩ := ih _ m1
    rw [List.foldl_cons]
    exact ⟨by rw [s2, s1], m2⟩

lemma processWallet_stable {h : String} (s : PollerState) (w : String)
    (ts : List Trade) (hh : h ∈ s.seen) :
    hashCount h (processWallet s w ts).queue = hashCount h s.queue ∧
    (processWallet s w ts).seen.count h = s.seen.count h ∧
    h ∈ (processWallet s w ts).seen := by
  unfold processWallet
  split
  · exact ⟨rfl, rfl, hh⟩
  · split
    · exact foldl_seenStep_stable ts s hh
    · obtain ⟨s1, m1⟩ := foldl_baselineStep_stable ts s.seen hh
      exact ⟨rfl, s1, m1⟩

lemma pass_stable {h : String} (f : String → FetchResult) (ws : List String)
    (s : PollerState) (hh : h ∈ s.seen) :
    hashCount h (check_trades_from_wallets f ws s).queue = hashCount h s.queue ∧
    (check_trades_from_wallets f ws s).seen.count h = s.seen.count h ∧
    h ∈ (check_trades_from_wallets f ws s).seen := by
  induction ws generalizing s with
  | nil => exact ⟨rfl, rfl, hh⟩
  | cons w0 ws ih =>
    obtain ⟨q1, s1, m1⟩ := processWallet_stable s w0 (get_trades_from_wallet f w0) hh
    obtain ⟨q2, s2, m2⟩ := ih _ m1
    rw [check_cons]
    exact ⟨by rw [q2, q1], by rw [s2, s1], m2⟩

/-- Across any sequence of further discovery passes (arbitrary fetch outcomes
and wallet snapshots), a hash already in `seen_trades` contributes no further
queue entries. -/
lemma passes_stable {h : String}
    (ps : List ((String → FetchResult) × List String)) (s : PollerState)
    (hh : h ∈ s.seen) :
    hashCount h
        ((ps.foldl (fun st pr => check_trades_from_wallets pr.1 pr.2 st) s).queue) =
      hashCount h s.queue ∧
    h ∈ (ps.foldl (fun st pr => check_trades_from_wallets pr.1 pr.2 st) s).seen := by
  induction ps generalizing s with
  | nil => exact ⟨rfl, hh⟩
  | cons p ps ih =>
    obtain ⟨q1, _, m1⟩ := pass_stable p.1 p.2 s hh
    obtain ⟨q2, m2⟩ := ih _ m1
    rw [List.foldl_cons]
    exact ⟨by rw [q2, q1], m2⟩

/-- A step on a trade whose hash differs from `h` neither touches the `h`
counts nor changes whether `h` is seen. -/
lemma seenStep_avoid {h : String} (st : PollerState) (t : Trade)
    (hne : t.transactionHash ≠ some h) :
    hashCount h (seenStep st t).queue = hashCount h st.queue ∧
    (seenStep st t).seen.count h = st.seen.count h ∧
    ((h ∈ (seenStep st t).seen) ↔ h ∈ st.seen) := by
  rcases seenStep_cases st t with he | ⟨a, ha, _, _, he⟩
  · rw [he]; exact ⟨rfl, rfl, Iff.rfl⟩
  · have hah : a ≠ h := fun e => hne (by rw [ha, e])
    rw [he]
    refine ⟨?_, ?_, ?_⟩
    · simp [hashCount, List.countP_append, ha, hah]
    · simp [List.count_append, count_singleton_ne a h hah]
    · simp [List.mem_append, hah, Ne.symm hah]

lemma foldl_seenStep_avoid {h : String} (ts : List Trade) (st : PollerState)
    (hall : ∀ t ∈ ts, t.transactionHash ≠ some h) :
    hashCount h (ts.foldl seenStep st).queue = hashCount h st.queue ∧
    (ts.foldl seenStep st).seen.count h = st.seen.count h ∧
    ((h ∈ (ts.foldl seenStep st).seen) ↔ h ∈ st.seen) := by
  induction ts generalizing st with
  | nil => exact ⟨rfl, rfl, Iff.rfl⟩
  | cons t ts ih =>
    obtain ⟨q1, s1, m1⟩ := seenStep_avoid st t (hall t (List.mem_cons_self _ _))
    obtain ⟨q2, s2, m2⟩ :=
      ih (seenStep st t) (fun t' ht' => hall t' (List.mem_cons_of_mem _ ht'))
    rw [List.foldl_cons]
    exact ⟨by rw [q2, q1], by rw [s2, s1], m2.trans m1⟩

lemma baselineStep_avoid {h : String} (seen : List String) (t : Trade)
    (hne : t.transactionHash ≠ some h) :
    (baselineStep seen t).count h = seen.count h ∧
    ((h ∈ baselineStep seen t) ↔ h ∈ seen) := by
  rcases baselineStep_cases seen t with he | ⟨a, ha, _, _, he⟩
  · rw [he]; exact ⟨rfl, Iff.rfl⟩
  · have hah : a ≠ h := fun e => hne (by rw [ha, e])
    rw [he]
    exact ⟨by simp [List.count_append, count_singleton_ne a h hah],
      by simp [List.mem_append, hah, Ne.symm hah]⟩

lemma foldl_baselineStep_avoid {h : String} (ts : List Trade)
    (seen : List String) (hall : ∀ t ∈ ts, t.transactionHash ≠ some h) :
    (ts.foldl baselineStep seen).count h = seen.count h ∧
    ((h ∈ ts.foldl baselineStep seen) ↔ h ∈ seen) := by
  induction ts generalizing seen with
  | nil => exact ⟨rfl, Iff.rfl⟩
  | cons t ts ih =>
    obtain ⟨s1, m1⟩ := baselineStep_avoid seen t (hall t (List.mem_cons_self _ _))
    obtain ⟨s2, m2⟩ :=
      ih (baselineStep seen t) (fun t' ht' => hall t' (List.mem_cons_of_mem _ ht'))
    rw [List.foldl_cons]
    exact ⟨by rw [s2, s1], m2.trans m1⟩

lemma processWallet_avoid {h : String} (s : PollerState) (w : String)
    (ts : List Trade) (hall : ∀ t ∈ ts, t.transactionHash ≠ some h) :
    hashCount h (processWallet s w ts).queue = hashCount h s.queue ∧
    (processWallet s w ts).seen.count h = s.seen.count h ∧
    ((h ∈ (processWallet s w ts).seen) ↔ h ∈ s.seen) := by
  unfold processWallet
  split
  · exact ⟨rfl, rfl, Iff.rfl⟩
  · split
    · exact foldl_seenStep_avoid ts s hall
    · obtain ⟨s1, m1⟩ := foldl_baselineStep_avoid ts s.seen hall
      exact ⟨rfl, s1, m1⟩

/-- Appending a trade with hash `h` bumps the `h` queue count by one. -/
lemma hashCount_append_self (h : String) (q : List Trade) (t : Trade)
    (hth : t.transactionHash = some h) :
    hashCount h (q ++ [t]) = hashCount h q + 1 := by
  simp [hashCount, List.countP_append, hth]

/-- Processing the watched branch on a list that contains exactly one trade
with fresh truthy hash `h` queues that trade exactly once and records the hash
exactly once. -/
lemma foldl_seenStep_insert {h : String} {t : Trade} (hne : h ≠ "")
    (hth : t.transactionHash = some h) :
    ∀ (ts : List Trade) (st : PollerState), h ∉ st.seen → t ∈ ts →
      (∀ t' ∈ ts, t'.transactionHash = some h → t' = t) →
      t ∈ (ts.foldl seenStep st).queue ∧
      hashCount h (ts.foldl seenStep st).queue = hashCount h st.queue + 1 ∧
      (ts.foldl seenStep st).seen.count h = st.seen.count h + 1 ∧
      h ∈ (ts.foldl seenStep st).seen := by
  intro ts
  induction ts with
  | nil => intro st _ ht _; cases ht
  | cons t0 ts ih =>
    intro st hns ht huniq
    rw [List.foldl_cons]
    by_cases h0 : t0.transactionHash = some h
    · have ht0 : t0 = t := huniq t0 (List.mem_cons_self _ _) h0
      subst ht0
      have hstep : seenStep st t0 =
          { st with queue := st.queue ++ [t0], seen := st.seen ++ [h] } := by
        simp [seenStep, h0, hne, hns]
      rw [hstep]
      have hmem : h ∈ st.seen ++ [h] := List.mem_append_right _ (by simp)
      obtain ⟨q2, s2, m2⟩ := foldl_seenStep_stable ts
        { st with queue := st.queue ++ [t0], seen := st.seen ++ [h] } hmem
      refine ⟨foldl_seenStep_queue_mono _ _ (List.mem_append_right _ (by simp)),
        ?_, ?_, m2⟩
      · rw [q2]; exact hashCount_append_self h st.queue t0 h0
      · rw [s2, List.count_append]; simp
    · have ht' : t ∈ ts := by
        rcases List.mem_cons.mp ht with rfl | h'
        · exact absurd hth h0
        · exact h'
      obtain ⟨qa, sa, ma⟩ := seenStep_avoid st t0 h0
      have hns1 : h ∉ (seenStep st t0).seen := fun hm => hns (ma.mp hm)
      obtain ⟨m', q', s', mm⟩ := ih (seenStep st t0) hns1 ht'
        (fun t' ht'' => huniq t' (List.mem_cons_of_mem _ ht''))
      exact ⟨m', by rw [q', qa], by rw [s', sa], mm⟩

/-- Per-wallet version of the exactly-once property on the watched branch. -/
lemma processWallet_insert {h : String} {t : Trade} (hne : h ≠ "")
    (hth : t.transactionHash = some h) (s : PollerState) (w : String)
    (ts : List Trade) (hw : w ∈ s.watched) (hns : h ∉ s.seen) (ht : t ∈ ts)
    (huniq : ∀ t' ∈ ts, t'.transactionHash = some h → t' = t) :
    t ∈ (processWallet s w ts).queue ∧
    hashCount h (processWallet s w ts).queue = hashCount h s.queue + 1 ∧
    (processWallet s w ts).seen.count h = s.seen.count h + 1 ∧
    h ∈ (processWallet s w ts).seen := by
  unfold processWallet
  rw [if_neg (by simpa [List.isEmpty_iff] using List.ne_nil_of_mem ht), if_pos hw]
  exact foldl_seenStep_insert hne hth ts s hns ht huniq

/-- Pass-level exactly-once lemma: an already-watched wallet's fresh trade is
queued once and its hash recorded once by one discovery pass, provided no other
wallet of the snapshot reports the same hash. -/
lemma pass_insert {h : String} {t : Trade} (hne : h ≠ "")
    (hth : t.transactionHash = some h) (f : String → FetchResult) (w : String)
    (htw : t ∈ get_trades_from_wallet f w)
    (huniq : ∀ t' ∈ get_trades_from_wallet f w,
      t'.transactionHash = some h → t' = t) :
    ∀ (ws : List String) (s : PollerState), w ∈ ws → w ∈ s.watched →
      h ∉ s.seen →
      (∀ w' ∈ ws, w' ≠ w →
        ∀ t' ∈ get_trades_from_wallet f w', t'.transactionHash ≠ some h) →
      t ∈ (check_trades_from_wallets f ws s).queue ∧
      hashCount h (check_trades_from_wallets f ws s).queue =
        hashCount h s.queue + 1 ∧
      (check_trades_from_wallets f ws s).seen.count h = s.seen.count h + 1 ∧
      h ∈ (check_trades_from_wallets f ws s).seen := by
  intro ws
  induction ws with
  | nil => intro s hws; cases hws
  | cons w0 ws ih =>
    intro s hws hw hns hother
    rw [check_cons]
    by_cases hw0 : w0 = w
    · subst hw0
      obtain ⟨m1, q1, s1, mem1⟩ :=
        processWallet_insert hne hth s w0 (get_trades_from_wallet f w0)
          hw hns htw huniq
      obtain ⟨q2, s2, mem2⟩ := pass_stable f ws _ mem1
      exact ⟨pass_queue_mono f ws _ m1, by rw [q2, q1], by rw [s2, s1], mem2⟩
    · have hav : ∀ t' ∈ get_trades_from_wallet f w0,
          t'.transactionHash ≠ some h :=
        hother w0 (List.mem_cons_self _ _) hw0
      obtain ⟨qa, sa, miff⟩ :=
        processWallet_avoid s w0 (get_trades_from_wallet f w0) hav
      have hw' : w ∈ (processWallet s w0 (get_trades_from_wallet f w0)).watched :=
        processWallet_watched_mono _ _ _ hw
      have hns' : h ∉ (processWallet s w0 (get_trades_from_wallet f w0)).seen :=
        fun hm => hns (miff.mp hm)
      have hwin : w ∈ ws :=
        (List.mem_cons.mp hws).resolve_left (fun e => hw0 e.symm)
      obtain ⟨m', q', s', mm⟩ := ih _ hwin hw' hns'
        (fun w' hw'' => hother w' (List.mem_cons_of_mem _ hw''))
      exact ⟨m', by rw [q', qa], by rw [s', sa], mm⟩

/-- A watched-branch step is the identity when every truthy hash of the trade
is already seen. -/
lemma seenStep_id_of_seen (s : PollerState) (t : Trade)
    (hall : ∀ h, t.transactionHash = some h → h ≠ "" → h ∈ s.seen) :
    seenStep s t = s := by
  rcases ht : t.transactionHash with _ | h
  · simp [seenStep, ht]
  · by_cases h1 : h = ""
    · simp [seenStep, ht, h1]
    · simp [seenStep, ht, h1, hall h ht h1]

lemma foldl_seenStep_id (ts : List Trade) (s : PollerState)
    (hall : ∀ t ∈ ts, seenStep s t = s) : ts.foldl seenStep s = s := by
  induction ts with
  | nil => rfl
  | cons t ts ih =>
    rw [List.foldl_cons, hall t (List.mem_cons_self _ _)]
    exact ih (fun t' ht' => hall t' (List.mem_cons_of_mem _ ht'))

/-- Processing a wallet is the identity once the wallet is watched (when its
fetch is non-empty) and every truthy fetched hash is seen. -/
lemma processWallet_id (s : PollerState) (w : String) (ts : List Trade)
    (hcond : ts ≠ [] → w ∈ s.watched ∧
      ∀ t ∈ ts, ∀ h, t.transactionHash = some h → h ≠ "" → h ∈ s.seen) :
    processWallet s w ts = s := by
  by_cases hts : ts = []
  · subst hts; rfl
  · obtain ⟨hw, hseen⟩ := hcond hts
    unfold processWallet
    rw [if_neg (by simpa [List.isEmpty_iff] using hts), if_pos hw]
    exact foldl_seenStep_id ts s
      (fun t ht => seenStep_id_of_seen s t (fun h hth hne => hseen t ht h hth hne))

/-- After one discovery pass, the resulting state has absorbed that pass. -/
lemma pass_processed (f : String → FetchResult) (ws : List String)
    (s : PollerState) : Processed f ws (check_trades_from_wallets f ws s) := by
  induction ws generalizing s with
  | nil => intro w hw; cases hw
  | cons w0 ws ih =>
    intro w hw hne
    rw [check_cons]
    rcases List.mem_cons.mp hw with rfl | hw'
    · constructor
      · exact pass_watched_mono _ _ _
          (processWallet_watched_self _ _ _ (by
            intro hnil
            exact hne (by rw [hnil])))
      · intro t ht h hth hne2
        exact pass_seen_mono _ _ _
          (processWallet_hashes_seen _ _ _ t h ht hth hne2)
    · exact ih _ w hw' hne

/-- A pass over a state that has already absorbed it is the identity. -/
lemma pass_of_processed (f : String → FetchResult) :
    ∀ (ws : List String) (s : PollerState), Processed f ws s →
      check_trades_from_wallets f ws s = s := by
  intro ws
  induction ws with
  | nil => intro s _; rfl
  | cons w0 ws ih =>
    intro s hp
    have hid : processWallet s w0 (get_trades_from_wallet f w0) = s :=
      processWallet_id s w0 _ (fun hne => hp w0 (List.mem_cons_self _ _) hne)
    rw [check_cons, hid]
    exact ih s (fun w hw => hp w (List.mem_cons_of_mem _ hw))

/-- One discovery pass is idempotent: repeating it with the identical remote
response and wallet snapshot changes nothing. -/
lemma pass_idem (f : String → FetchResult) (ws : List String) (s : PollerState) :
    check_trades_from_wallets f ws (check_trades_from_wallets f ws s) =
      check_trades_from_wallets f ws s :=
  pass_of_processed f ws _ (pass_processed f ws s)

/-! ## Lemmas about the order execution engine -/

/-- The size clamp written `5 if min_size < 5 else min_size` is the max with 5. -/
lemma ite_lt_five_eq_max (x : ℚ) : (if x < 5 then (5 : ℚ) else x) = max 5 x := by
  rcases le_or_lt 5 x with h | h
  · rw [if_neg (not_lt.mpr h), max_eq_right h]
  · rw [if_pos h, max_eq_left h.le]

/-- When the configured order type is `"limit"` and the sizing prelude
succeeds, the whole execution attempt returns the limit-branch trace. -/
lemma make_order_limit_of_prelude_ok (c : Controller) (r : Remote) (t : Trade)
    (pm : Option ℚ × ℚ) (hOT : c.order_type = "limit")
    (hpre : sizingPrelude c t = .ok pm) :
    make_order_and_wait_confirmation c r t =
      .ok (limitTryCalls c r t.asset t.side pm.1 pm.2) := by
  unfold make_order_and_wait_confirmation
  rw [if_pos hOT, hpre, hOT]
  simp [Except.map]

/-- When the configured order type is neither `"limit"` nor `"market"`, the
execution attempt issues no API call and completes. -/
lemma make_order_other_type (c : Controller) (r : Remote) (t : Trade)
    (h1 : c.order_type ≠ "limit") (h2 : c.order_type ≠ "market") :
    make_order_and_wait_confirmation c r t = .ok [] := by
  unfold make_order_and_wait_confirmation
  rw [if_neg h1]
  simp [h2]

/-- When the configured order type is `"market"`, the execution attempt
returns exactly the market-branch trace and completes. -/
lemma make_order_market (c : Controller) (r : Remote) (t : Trade)
    (hOT : c.order_type = "market") :
    make_order_and_wait_confirmation c r t = .ok (marketTryCalls c r t) := by
  unfold make_order_and_wait_confirmation
  rw [if_neg (by rw [hOT]; decide), hOT]
  simp

/-! ## Claim C2 (corrected) -/

/-- Claim C2, counterexample: with order type `"limit"` and the
minimum-viable-share flag enabled, a queued trade whose `price` field is `0`
makes `make_order_and_wait_confirmation` raise `ZeroDivisionError` (the sizing
prelude at lines 205-212 runs before the `try` block), so `execute_queued_trades`
aborts without removing the trade from the queue — refuting "always completes
without raising regardless of the trade's field contents". -/
theorem zero_price_limit_trade_raises :
    make_order_and_wait_confirmation
      { order_type := "limit", market_order_fixed_ammount := 7,
        min_share_possible := true }
      { createOrderOk := true, postOrderResp := some "oid1",
        openOrders := [], createMarketOrderOk := true }
      { transactionHash := some "h1", asset := some "A", price := some 0,
        size := some 1, side := some "BUY" } = .error .zeroDivisionError ∧
    execute_queued_trades
      { order_type := "limit", market_order_fixed_ammount := 7,
        min_share_possible := true }
      { createOrderOk := true, postOrderResp := some "oid1",
        openOrders := [], createMarketOrderOk := true }
      [{ transactionHash := some "h1", asset := some "A", price := some 0,
         size := some 1, side := some "BUY" }] = .error .zeroDivisionError :=
  ⟨rfl, rfl⟩

/-- Claim C2, amended: for every queued trade whose `asset` field is present
and for which — when the configured order type is `"limit"` — the sizing
prelude succeeds (with min-share enabled: `price` and `size` present and
`price ≠ 0`; with it disabled: `size` present), the execution attempt completes
without raising regardless of remote-call failures, and the surrounding
`execute_queued_trades` loop body then removes the trade from the queue. -/
theorem execution_attempt_completes_and_removes
    (c : Controller) (r : Remote) (q : List Trade) (t : Trade) (a : String)
    (hAsset : t.asset = some a)
    (hPrelude : c.order_type = "limit" → ∃ pm, sizingPrelude c t = .ok pm) :
    ∃ calls, make_order_and_wait_confirmation c r t = .ok calls ∧
      executeQueuedTradesStep c r q t = .ok (q.erase t) := by
  by_cases hlim : c.order_type = "limit"
  · obtain ⟨pm, hpm⟩ := hPrelude hlim
    refine ⟨limitTryCalls c r t.asset t.side pm.1 pm.2,
      make_order_limit_of_prelude_ok c r t pm hlim hpm, ?_⟩
    unfold executeQueuedTradesStep
    rw [hAsset, make_order_limit_of_prelude_ok c r t pm hlim hpm]
  · by_cases hmkt : c.order_type = "market"
    · refine ⟨marketTryCalls c r t, make_order_market c r t hmkt, ?_⟩
      unfold executeQueuedTradesStep
      rw [hAsset, make_order_market c r t hmkt]
    · refine ⟨[], make_order_other_type c r t hlim hmkt, ?_⟩
      unfold executeQueuedTradesStep
      rw [hAsset, make_order_other_type c r t hlim hmkt]

/-- Claim C2, witness for the amended theorem at a concrete well-formed
market-order trade. -/
theorem execution_attempt_completes_and_removes_witness :
    ∃ calls, make_order_and_wait_confirmation
      { order_type := "market", market_order_fixed_ammount := 7,
        min_share_possible := false }
      { createOrderOk := true, postOrderResp := some "oid1",
        openOrders := [], createMarketOrderOk := true }
      { transactionHash := some "h1", asset := some "A", price := some (1/2),
        size := some 3, side := some "BUY" } = .ok calls ∧
    executeQueuedTradesStep
      { order_type := "market", market_order_fixed_ammount := 7,
        min_share_possible := false }
      { createOrderOk := true, postOrderResp := some "oid1",
        openOrders := [], createMarketOrderOk := true }
      [{ transactionHash := some "h1", asset := some "A", price := some (1/2),
         size := some 3, side := some "BUY" }]
      { transactionHash := some "h1", asset := some "A", price := some (1/2),
        size := some 3, side := some "BUY" } =
      .ok ([{ transactionHash := some "h1", asset := some "A",
              price := some (1/2), size := some 3, side := some "BUY" }].erase
            { transactionHash := some "h1", asset := some "A",
              price := some (1/2), size := some 3, side := some "BUY" }) :=
  execution_attempt_completes_and_removes _ _ _ _ "A" rfl
    (fun h => by simp at h)

/-! ## Claim C3 (code bug) -/

/-- Claim C3, code evaluation: with order type `"limit"` and the
minimum-viable-share flag disabled, the local variable `price` is never bound
(it is assigned only in the min-share branch, line 208) yet `OrderArgs` at line
218 references it, so the `try` block dies with `UnboundLocalError`, the handler
at line 238 swallows it, and *no* order is placed — for any remote behaviour —
contradicting the claimed placement with `size = max(5, trade.size)` and
`price = trade.price`. -/
theorem limit_without_min_share_places_no_order (r : Remote) :
    make_order_and_wait_confirmation
      { order_type := "limit", market_order_fixed_ammount := 7,
        min_share_possible := false }
      r
      { transactionHash := some "h1", asset := some "A", price := some (1/2),
        size := some 10, side := some "BUY" } = .ok [] := rfl

/-! ## Claim C4 (code bug) -/

/-- Claim C4, code evaluation: a limit order is placed successfully
(`create_order` and `post_order` both succeed, `orderID = "oid1"`) and the
order is still open afterwards (`openOrders = ["oid1"]`), yet the trace stops
at the two placement calls: the log line at 228 interpolates
`self.limit_order_timeout`, which `__init__` never assigned, so `AttributeError`
is raised and caught — the engine never waits, never queries open orders, and
never cancels, contradicting the claimed wait-then-cancel behaviour. -/
theorem placed_limit_order_never_cancelled :
    make_order_and_wait_confirmation
      { order_type := "limit", market_order_fixed_ammount := 7,
        min_share_possible := true }
      { createOrderOk := true, postOrderResp := some "oid1",
        openOrders := ["oid1"], createMarketOrderOk := true }
      { transactionHash := some "h1", asset := some "A", price := some (1/2),
        size := some 10, side := some "BUY" } =
      .ok [ApiCall.createOrder "A" (1/2) 5 "BUY", ApiCall.postOrderGTC] ∧
    ApiCall.getOpenOrders ∉
      [ApiCall.createOrder "A" ((1 : ℚ)/2) 5 "BUY", ApiCall.postOrderGTC] ∧
    ApiCall.cancel "oid1" ∉
      [ApiCall.createOrder "A" ((1 : ℚ)/2) 5 "BUY", ApiCall.postOrderGTC] := by
  have h : ⌈(1 : ℚ)/(1/2)⌉ = 2 := by norm_num
  refine ⟨?_, by decide, by decide⟩
  simp [make_order_and_wait_confirmation, sizingPrelude, limitTryCalls,
    limitPostPlacement, Controller.limitOrderTimeoutAttr, Except.map, h]
  norm_num

/-! ## Claim C6 (confirmed) -/

/-- Claim C6: with order type `"limit"`, the minimum-viable-share flag
enabled, and `trade.price = p > 0`, the order handed to `create_order` carries
`size = max(5, ceil(1/p))` and `price = p`, with side and token from the source
trade — and that size guarantees `price * size ≥ 1`. -/
theorem min_share_limit_order_size_and_notional
    (c : Controller) (r : Remote) (t : Trade) (p sz : ℚ) (a sd : String)
    (hOT : c.order_type = "limit") (hMS : c.min_share_possible = true)
    (hp : t.price = some p) (hppos : 0 < p) (hsz : t.size = some sz)
    (ha : t.asset = some a) (hsd : t.side = some sd) :
    ∃ rest, make_order_and_wait_confirmation c r t =
        .ok (ApiCall.createOrder a p (max 5 ((⌈(1 : ℚ)/p⌉ : ℤ) : ℚ)) sd :: rest) ∧
      1 ≤ p * max 5 ((⌈(1 : ℚ)/p⌉ : ℤ) : ℚ) := by
  have hpre : sizingPrelude c t = .ok (some p, ((⌈(1 : ℚ)/p⌉ : ℤ) : ℚ)) := by
    simp [sizingPrelude, hMS, hp, hsz, hppos.ne']
  have hm := make_order_limit_of_prelude_ok c r t _ hOT hpre
  rw [ha, hsd] at hm
  refine ⟨(if r.createOrderOk then
      ApiCall.postOrderGTC ::
        (match r.postOrderResp with
         | some oid => limitPostPlacement c r oid
         | none => [])
     else []), ?_, ?_⟩
  · rw [hm]
    simp only [limitTryCalls]
    rw [ite_lt_five_eq_max]
  · have h1 : (1 : ℚ)/p ≤ ((⌈(1 : ℚ)/p⌉ : ℤ) : ℚ) := Int.le_ceil _
    have h2 : (1 : ℚ)/p ≤ max 5 ((⌈(1 : ℚ)/p⌉ : ℤ) : ℚ) :=
      h1.trans (le_max_right _ _)
    have h3 := mul_le_mul_of_nonneg_left h2 hppos.le
    rwa [mul_one_div, div_self hppos.ne'] at h3

/-- Claim C6, witness at `price = 1/3` (so `ceil(1/price) = 3` and the clamp
to 5 applies). -/
theorem min_share_limit_order_size_and_notional_witness :
    ∃ rest, make_order_and_wait_confirmation
        { order_type := "limit", market_order_fixed_ammount := 7,
          min_share_possible := true }
        { createOrderOk := true, postOrderResp := some "oid1",
          openOrders := [], createMarketOrderOk := true }
        { transactionHash := some "h1", asset := some "A", price := some (1/3),
          size := some 2, side := some "BUY" } =
        .ok (ApiCall.createOrder "A" (1/3)
              (max 5 ((⌈(1 : ℚ)/(1/3)⌉ : ℤ) : ℚ)) "BUY" :: rest) ∧
      1 ≤ (1/3 : ℚ) * max 5 ((⌈(1 : ℚ)/(1/3)⌉ : ℤ) : ℚ) :=
  min_share_limit_order_size_and_notional _ _ _ (1/3) 2 "A" "BUY"
    rfl rfl rfl (by norm_num) rfl rfl rfl

/-! ## Claim C10 (confirmed) -/

/-- Claim C10: when the configured order type is neither `"limit"` nor
`"market"`, one execution attempt issues no trading-API call at all, completes
without raising, and the `execute_queued_trades` loop body still removes the
trade from the queue — the trade is silently dropped. -/
theorem unknown_order_type_silently_drops
    (c : Controller) (r : Remote) (q : List Trade) (t : Trade) (a : String)
    (h1 : c.order_type ≠ "limit") (h2 : c.order_type ≠ "market")
    (ha : t.asset = some a) :
    make_order_and_wait_confirmation c r t = .ok [] ∧
    executeQueuedTradesStep c r q t = .ok (q.erase t) := by
  refine ⟨make_order_other_type c r t h1 h2, ?_⟩
  unfold executeQueuedTradesStep
  rw [ha, make_order_other_type c r t h1 h2]

/-- Claim C10, witness at order type `"limita"`. -/
theorem unknown_order_type_silently_drops_witness :
    make_order_and_wait_confirmation
      { order_type := "limita", market_order_fixed_ammount := 7,
        min_share_possible := true }
      { createOrderOk := true, postOrderResp := some "oid1",
        openOrders := [], createMarketOrderOk := true }
      { transactionHash := some "h1", asset := some "A", price := some (1/2),
        size := some 3, side := some "BUY" } = .ok [] ∧
    executeQueuedTradesStep
      { order_type := "limita", market_order_fixed_ammount := 7,
        min_share_possible := true }
      { createOrderOk := true, postOrderResp := some "oid1",
        openOrders := [], createMarketOrderOk := true }
      [{ transactionHash := some "h1", asset := some "A", price := some (1/2),
         size := some 3, side := some "BUY" }]
      { transactionHash := some "h1", asset := some "A", price := some (1/2),
        size := some 3, side := some "BUY" } =
      .ok ([{ transactionHash := some "h1", asset := some "A",
              price := some (1/2), size := some 3, side := some "BUY" }].erase
            { transactionHash := some "h1", asset := some "A",
              price := some (1/2), size := some 3, side := some "BUY" }) :=
  unknown_order_type_silently_drops _ _ _ _ "A" (by decide) (by decide) rfl

/-! ## Claim C8 (confirmed) -/

/-- Claim C8: the wallet-registry reload never raises out of the call — it is
a total function of the read outcome: on any read failure the snapshot is reset
to `[]` (and returned), and on success both the snapshot and the returned value
are exactly the lines of the wallet file. -/
theorem wallet_reload_never_raises (r : Except Unit String) :
    (get_wallets_to_copy r).1 = (get_wallets_to_copy r).2 ∧
    (∀ e : Unit, r = .error e → get_wallets_to_copy r = ([], [])) ∧
    (∀ content : String, r = .ok content →
      (get_wallets_to_copy r).1 = pySplitlines content) := by
  cases r <;> simp [get_wallets_to_copy]

/-- Claim C8, witness: a failed read yields the empty snapshot. -/
theorem wallet_reload_never_raises_witness :
    get_wallets_to_copy (Except.error ()) = ([], []) :=
  (wallet_reload_never_raises (Except.error ())).2.1 () rfl

/-! ## Claims about the discovery pass -/

/-- A wallet whose fetch comes back empty is skipped by the pass: the pass
equals the pass over the snapshot with that wallet filtered out. -/
lemma pass_skip (f : String → FetchResult) (w : String)
    (hempty : get_trades_from_wallet f w = []) :
    ∀ (ws : List String) (s : PollerState),
      check_trades_from_wallets f ws s =
        check_trades_from_wallets f (ws.filter (fun x => x != w)) s := by
  intro ws
  induction ws with
  | nil => intro s; rfl
  | cons w0 ws ih =>
    intro s
    by_cases h0 : w0 = w
    · subst h0
      have h1 : (w0 :: ws).filter (fun x => x != w0) =
          ws.filter (fun x => x != w0) := by
        simp [List.filter_cons]
      have hid : processWallet s w0 ([] : List Trade) = s := rfl
      rw [h1, check_cons, hempty, hid]
      exact ih s
    · have h1 : (w0 :: ws).filter (fun x => x != w) =
          w0 :: ws.filter (fun x => x != w) := by
        simp [List.filter_cons, h0]
      rw [check_cons, h1, check_cons]
      exact ih _

/-! ## Claim C1 (confirmed) -/

/-- Claim C1: for an already-watched wallet of the snapshot and a fetched
trade whose truthy transaction hash is not yet in `seen_trades` (and is
reported by no other wallet of the snapshot), one discovery pass appends that
trade to the queue exactly once and inserts its hash into `seen_trades`
exactly once; a second pass with the identical remote response is the
identity, and across any sequence of further passes the hash contributes no
additional queue entries. -/
theorem watched_wallet_fresh_trade_queued_exactly_once
    (f : String → FetchResult) (ws : List String) (s : PollerState)
    (w h : String) (t : Trade)
    (hws : w ∈ ws) (hw : w ∈ s.watched)
    (htw : t ∈ get_trades_from_wallet f w)
    (hth : t.transactionHash = some h) (hne : h ≠ "") (hns : h ∉ s.seen)
    (huniq : ∀ t' ∈ get_trades_from_wallet f w,
      t'.transactionHash = some h → t' = t)
    (hother : ∀ w' ∈ ws, w' ≠ w →
      ∀ t' ∈ get_trades_from_wallet f w', t'.transactionHash ≠ some h) :
    t ∈ (check_trades_from_wallets f ws s).queue ∧
    hashCount h (check_trades_from_wallets f ws s).queue =
      hashCount h s.queue + 1 ∧
    (check_trades_from_wallets f ws s).seen.count h = s.seen.count h + 1 ∧
    check_trades_from_wallets f ws (check_trades_from_wallets f ws s) =
      check_trades_from_wallets f ws s ∧
    ∀ ps : List ((String → FetchResult) × List String),
      hashCount h
          ((ps.foldl (fun st pr => check_trades_from_wallets pr.1 pr.2 st)
            (check_trades_from_wallets f ws s)).queue) =
        hashCount h (check_trades_from_wallets f ws s).queue := by
  obtain ⟨m, q, cs, mem⟩ := pass_insert hne hth f w htw huniq ws s hws hw hns hother
  exact ⟨m, q, cs, pass_idem f ws s, fun ps => (passes_stable ps _ mem).1⟩

/-- Claim C1, witness: wallet `"W1"` already watched with `"T1","T2"` seen; the
fetch reports a fresh trade `"T3"`, and the conclusions hold at that input. -/
theorem watched_wallet_fresh_trade_queued_exactly_once_witness :
    mkTrade "T3" ∈ (check_trades_from_wallets fetchW1T3 ["W1"] stateW1Seen).queue ∧
    hashCount "T3" (check_trades_from_wallets fetchW1T3 ["W1"] stateW1Seen).queue =
      hashCount "T3" stateW1Seen.queue + 1 ∧
    (check_trades_from_wallets fetchW1T3 ["W1"] stateW1Seen).seen.count "T3" =
      stateW1Seen.seen.count "T3" + 1 ∧
    check_trades_from_wallets fetchW1T3 ["W1"]
        (check_trades_from_wallets fetchW1T3 ["W1"] stateW1Seen) =
      check_trades_from_wallets fetchW1T3 ["W1"] stateW1Seen ∧
    ∀ ps : List ((String → FetchResult) × List String),
      hashCount "T3"
          ((ps.foldl (fun st pr => check_trades_from_wallets pr.1 pr.2 st)
            (check_trades_from_wallets fetchW1T3 ["W1"] stateW1Seen)).queue) =
        hashCount "T3"
          (check_trades_from_wallets fetchW1T3 ["W1"] stateW1Seen).queue :=
  watched_wallet_fresh_trade_queued_exactly_once fetchW1T3 ["W1"] stateW1Seen
    "W1" "T3" (mkTrade "T3") (by decide) (by decide) (by decide) rfl
    (by decide) (by decide) (by decide) (by decide)

/-! ## Claim C5 (confirmed) -/

/-- Claim C5: processing a not-yet-watched wallet whose fetch returned a
non-empty list of trades, each carrying a truthy transaction hash, marks the
wallet watched, inserts every fetched hash into `seen_trades`, and appends
nothing to the trade queue — regardless of which hashes were already seen. -/
theorem new_wallet_baseline_import
    (s : PollerState) (w : String) (ts : List Trade)
    (hts : ts ≠ []) (hw : w ∉ s.watched)
    (hhash : ∀ t ∈ ts, ∃ h, t.transactionHash = some h ∧ h ≠ "") :
    w ∈ (processWallet s w ts).watched ∧
    (∀ t ∈ ts, ∀ h, t.transactionHash = some h →
      h ∈ (processWallet s w ts).seen) ∧
    (processWallet s w ts).queue = s.queue := by
  refine ⟨processWallet_watched_self s w ts hts, ?_, ?_⟩
  · intro t ht h hth
    obtain ⟨h', hth', hne'⟩ := hhash t ht
    have e : h' = h := Option.some.inj (hth'.symm.trans hth)
    subst e
    exact processWallet_hashes_seen s w ts t h' ht hth hne'
  · unfold processWallet
    rw [if_neg (by simpa [List.isEmpty_iff] using hts), if_neg hw]

/-- Claim C5, witness: a new wallet whose fetch contains one already-seen hash
and one fresh hash; both end up seen, nothing is queued. -/
theorem new_wallet_baseline_import_witness :
    "W1" ∈ (processWallet stateSeenT1 "W1" [mkTrade "T1", mkTrade "T2"]).watched ∧
    (∀ t ∈ [mkTrade "T1", mkTrade "T2"], ∀ h, t.transactionHash = some h →
      h ∈ (processWallet stateSeenT1 "W1" [mkTrade "T1", mkTrade "T2"]).seen) ∧
    (processWallet stateSeenT1 "W1" [mkTrade "T1", mkTrade "T2"]).queue =
      stateSeenT1.queue :=
  new_wallet_baseline_import stateSeenT1 "W1" [mkTrade "T1", mkTrade "T2"]
    (by decide) (by decide) (by decide)

/-! ## Claim C7 (confirmed) -/

/-- Claim C7: a fetch failure for one wallet makes the pass identical to the
pass over the snapshot with that wallet removed — the failing wallet is
skipped, every other wallet is classified and recorded exactly as before. -/
theorem fetch_failure_isolates_wallet
    (f : String → FetchResult) (ws : List String) (s : PollerState) (w : String)
    (hfail : f w = .fetchFailure) :
    check_trades_from_wallets f ws s =
      check_trades_from_wallets f (ws.filter (fun x => x != w)) s :=
  pass_skip f w (by simp [get_trades_from_wallet, hfail]) ws s

/-- Claim C7, witness: of three wallets the middle one's fetch fails; the pass
equals the pass over the other two. -/
theorem fetch_failure_isolates_wallet_witness :
    check_trades_from_wallets fetchFailW2 ["W1", "W2", "W3"] stateW1Only =
      check_trades_from_wallets fetchFailW2
        (["W1", "W2", "W3"].filter (fun x => x != "W2")) stateW1Only :=
  fetch_failure_isolates_wallet fetchFailW2 ["W1", "W2", "W3"] stateW1Only
    "W2" rfl

/-! ## Claim C9 (confirmed) -/

/-- Claim C9: a wallet whose fetch yields the empty list (which includes every
fetch failure) is skipped entirely — the pass equals the pass with that wallet
removed from the snapshot and the wallet's watched status is unchanged — and
any wallet watched after a pass was either watched before or had a non-empty
fetch in that pass. -/
theorem empty_fetch_wallet_skipped
    (f : String → FetchResult) (ws : List String) (s : PollerState) (w : String)
    (hempty : get_trades_from_wallet f w = []) :
    check_trades_from_wallets f ws s =
      check_trades_from_wallets f (ws.filter (fun x => x != w)) s ∧
    ((w ∈ (check_trades_from_wallets f ws s).watched) ↔ w ∈ s.watched) ∧
    (∀ x, x ∈ (check_trades_from_wallets f ws s).watched →
      x ∈ s.watched ∨ (x ∈ ws ∧ get_trades_from_wallet f x ≠ [])) := by
  refine ⟨pass_skip f w hempty ws s,
    ⟨fun hmem => ?_, fun hmem => pass_watched_mono f ws s hmem⟩,
    fun x hx => pass_watched_sub f ws s x hx⟩
  rcases pass_watched_sub f ws s w hmem with hmem' | ⟨_, hne⟩
  · exact hmem'
  · exact absurd hempty hne

/-- Claim C9, witness: a never-watched wallet whose fetch fails stays
unwatched after the pass. -/
theorem empty_fetch_wallet_skipped_witness :
    check_trades_from_wallets (fun _ => FetchResult.fetchFailure) ["W1"]
        stateEmpty =
      check_trades_from_wallets (fun _ => FetchResult.fetchFailure)
        (["W1"].filter (fun x => x != "W1")) stateEmpty ∧
    (("W1" ∈ (check_trades_from_wallets (fun _ => FetchResult.fetchFailure)
        ["W1"] stateEmpty).watched) ↔ "W1" ∈ stateEmpty.watched) ∧
    (∀ x, x ∈ (check_trades_from_wallets (fun _ => FetchResult.fetchFailure)
        ["W1"] stateEmpty).watched →
      x ∈ stateEmpty.watched ∨
        (x ∈ ["W1"] ∧
          get_trades_from_wallet (fun _ => FetchResult.fetchFailure) x ≠ [])) :=
  empty_fetch_wallet_skipped (fun _ => FetchResult.fetchFailure) ["W1"]
    stateEmpty "W1" rfl

end PolyMarketCopier
